import Mathlib

/- Shallow embedding of the AllInOne batch/cache pipeline (main.py), the web
   fetch wrapper (WebScrapper.py) and the knowledge-graph binding (kg.py) of
   the Abhay06102003/BreakOutAI_Task repository, with proofs of the frozen
   claims about it. -/

/- ### Python call model

`WebScrapper.extract_top_website_text(keyword, top_n)` is a plain (non-async)
two-parameter function.  `AllInOne._fetch_website_text` calls it with three
arguments `(search, 3, session)`; CPython raises `TypeError` for an arity
mismatch before the callee body runs.  We model positional calls with an
explicit parameter count. -/

/-- Values that can be passed to the modelled Python call: strings, ints and
the aiohttp session object. -/
inductive PyVal where
  | str (s : String)
  | int (n : Int)
  | session
deriving DecidableEq

/-- A Python function value: its positional parameter count and its body.
The body is irrelevant when the arity check fails. -/
structure PyFunc where
  paramCount : Nat
  body : List PyVal → PyVal

/-- Positional call semantics: a call with the wrong number of positional
arguments raises `TypeError` before the body runs. -/
def pyCall (f : PyFunc) (args : List PyVal) : Except String PyVal :=
  if args.length = f.paramCount then Except.ok (f.body args)
  else Except.error "TypeError: wrong number of positional arguments"

/-- `WebScrapper.extract_top_website_text(keyword, top_n)` — a two-parameter
function (WebScrapper.py line 83).  Its body (network scraping) is opaque and
kept as a parameter. -/
def extract_top_website_text (body : List PyVal → PyVal) : PyFunc :=
  { paramCount := 2, body := body }

/-- Coercion of a Python value to the string the wrapper would return. -/
def pyValToString : PyVal → String
  | PyVal.str s => s
  | _ => ""

/-- `AllInOne._fetch_website_text` (main.py lines 90-96): calls
`extract_top_website_text(search, 3, session)` — three positional arguments —
inside `try`, and on any exception logs and returns `""`. -/
def fetch_website_text (body : List PyVal → PyVal) (search : String) : String :=
  match pyCall (extract_top_website_text body) [PyVal.str search, PyVal.int 3, PyVal.session] with
  | Except.ok v => pyValToString v
  | Except.error _ => ""

/- ### Filesystem / environment model for the per-key unit of work -/

/-- A persisted cache file: either a pickle that loads back to an answer
string, or a corrupt/unreadable file whose `pickle.load` raises. -/
inductive Entry where
  | corrupt
  | good (a : String)
deriving DecidableEq

/-- Mutable filesystem state threaded through the pipeline: the cache
directory (keyed by cache filename) and the existence of the per-search
intermediate artifact `data/{search}.md` (keyed by the search string). -/
structure FsState where
  cache : String → Option Entry
  artifacts : String → Bool

/-- Environment of one run: the fixed answer the knowledge-graph query
returns when it succeeds (`self.knowledge_g.query(self.question)`, whose
index is fixed at construction — see `KGm` below), the body of the scraping
function, and per-key failure oracles for the steps that can raise
(`query`, `os.remove`, cache `pickle.dump`), each with the exception detail
`str(e)` it would produce. -/
structure Env where
  qval : String
  fetchBody : List PyVal → PyVal
  queryFail : String → Bool
  queryDetail : String → String
  deleteFail : String → Bool
  deleteDetail : String → String
  storeFail : String → Bool
  storeDetail : String → String

/-- Invocation counts of the external collaborators made by one execution of
the per-key unit of work. -/
structure Trace where
  fetched : Nat
  queried : Nat
deriving DecidableEq

/-- The row-scoped error value of main.py line 124:
`f"Error processing {search}: {str(e)}"`. -/
def errStr (search detail : String) : String :=
  "Error processing " ++ search ++ ": " ++ detail

/-- `AllInOne._get_cache_filename` (main.py lines 76-88): the cache path is
`{cache_dir}/search_{md5(search).hexdigest()[:10]}.pkl`.  The md5 hex digest
is kept as a parameter `md5hex`. -/
def get_cache_filename (cache_dir : String) (md5hex : String → String) (search : String) : String :=
  cache_dir ++ "/search_" ++ (md5hex search).take 10 ++ ".pkl"

/-- The try block of `AllInOne._process_single_search_async` (main.py lines
109-124), run on a cache miss.  Step order as in the source: the fetch (whose
result is discarded), `knowledge_g.query`, conditional `os.remove` of
`data/{search}.md`, and `pickle.dump` into the cache file; any exception in
the `try` yields the formatted error string of line 124. -/
def process_miss (env : Env) (cname : String → String)
    (st : FsState) (search : String) : String × FsState × Trace :=
  let cache_file := cname search
  let _t := fetch_website_text env.fetchBody search
  if env.queryFail search then
    (errStr search (env.queryDetail search), st, ⟨1, 1⟩)
  else if st.artifacts search && env.deleteFail search then
    (errStr search (env.deleteDetail search), st, ⟨1, 1⟩)
  else
    let st1 := if st.artifacts search then
        { st with artifacts := Function.update st.artifacts search false }
      else st
    if env.storeFail search then
      (errStr search (env.storeDetail search), st1, ⟨1, 1⟩)
    else
      (env.qval,
       { st1 with cache := Function.update st1.cache cache_file (some (Entry.good env.qval)) },
       ⟨1, 1⟩)

/-- The cache-lookup guard of `AllInOne._process_single_search_async`
(main.py lines 100-107): a present, deserializable entry is returned at once;
a missing or corrupt entry falls through to the try block (`process_miss`). -/
def process_single_search_async (env : Env) (cname : String → String)
    (st : FsState) (search : String) : String × FsState × Trace :=
  match st.cache (cname search) with
  | some (Entry.good a) => (a, st, ⟨0, 0⟩)
  | _ => process_miss env cname st search

/- ### Knowledge-graph binding (kg.py)

`KG.__init__` builds the index once, from the documents present in the
working directory at construction time (`SimpleDirectoryReader(self.path)`)
or from a pickled index cache; `KG.query` answers against that stored index.
The index is never rebuilt afterwards. -/

/-- The knowledge-graph object: it stores the index built at construction. -/
structure KGm where
  index : List String

/-- `KG.build_knowledge_graph` (kg.py lines 48-75): snapshot the documents of
the working directory as they are at construction time. -/
def KGm.build (docs_at_init : List String) : KGm :=
  { index := docs_at_init }

/-- `KG.query` (kg.py lines 77-93): answer the question against the stored
index.  The answering backend is kept as the parameter `answer_fn`. -/
def KGm.query (answer_fn : List String → String → String) (kg : KGm) (question : String) : String :=
  answer_fn kg.index question

/-- The environment `AllInOne.__init__` sets up: `self.knowledge_g = KG('data')`
is built once, so every per-key query returns the answer computed from the
construction-time index. -/
def all_in_one_env (answer_fn : List String → String → String)
    (docs_at_init : List String) (question : String)
    (body : List PyVal → PyVal)
    (qf : String → Bool) (qd : String → String)
    (df : String → Bool) (dd : String → String)
    (sf : String → Bool) (sd : String → String) : Env :=
  { qval := KGm.query answer_fn (KGm.build docs_at_init) question
    fetchBody := body
    queryFail := qf, queryDetail := qd
    deleteFail := df, deleteDetail := dd
    storeFail := sf, storeDetail := sd }

/-- Modelled from the spec (section 4.3), for comparison with the code: the
spec reads the engine as a pure function of the working directory state at
query time and the question. -/
def spec_engine_answer (answer_fn : List String → String → String)
    (working_dir_now : List String) (question : String) : String :=
  answer_fn working_dir_now question

/- ### Batch execution (asyncio.gather) and the pipeline loop -/

/-- Execution of the scheduled tasks of one batch in an arbitrary completion
order: `order` lists the task indices in the order they complete; each
completed task's result is stored in the slot of its own index, as
`asyncio.gather` does (main.py lines 126-130). -/
def run_tasks (env : Env) (cname : String → String) (b : List String) :
    List Nat → (Nat → Option String) → FsState → (Nat → Option String) × FsState
  | [], f, st => (f, st)
  | j :: rest, f, st =>
    match b[j]? with
    | some k =>
      let r := process_single_search_async env cname st k
      run_tasks env cname b rest (Function.update f j (some r.1)) r.2.1
    | none => run_tasks env cname b rest f st

/-- `AllInOne._process_batch_async` (main.py lines 126-130): schedule one task
per search of the batch and gather the results positionally. -/
def process_batch_async (env : Env) (cname : String → String)
    (b : List String) (order : List Nat) (st : FsState) : List String × FsState :=
  let r := run_tasks env cname b order (fun _ => none) st
  ((List.range b.length).map (fun i => (r.1 i).getD ""), r.2)

/-- The coroutine list `tasks = [self._process_single_search_async(search,
session) for search in searches]` of main.py line 129: one scheduled task per
search of the batch, all handed to `asyncio.gather` at once. -/
def batch_tasks (searches : List String) : List String :=
  searches

/-- Partition into consecutive batches (`self.searches[i:i + self.batch_size]`,
main.py line 142), with fuel for termination; `l.length` fuel suffices for
any positive batch size. -/
def toBatchesAux (bs : Nat) : Nat → List String → List (List String)
  | 0, _ => []
  | _ + 1, [] => []
  | fuel + 1, a :: l => ((a :: l).take bs) :: toBatchesAux bs fuel ((a :: l).drop bs)

/-- The batches of a run. -/
def toBatches (bs : Nat) (l : List String) : List (List String) :=
  toBatchesAux bs l.length l

/-- The batch loop of `AllInOne.__call__` (main.py lines 136-156): process the
batches in order, extend `answers`, and at offsets `i` with
`i % (batch_size * 5) == 0` write the padded checkpoint
`answers + [''] * (len(searches) - len(answers))`; a checkpoint write failure
propagates out of the loop to the `except` clause, which logs and re-raises. -/
def run_call (env : Env) (cname : String → String) (orders : Nat → List Nat)
    (ckFail : Nat → Bool) (ckDetail : Nat → String) (bs total : Nat) :
    List (List String) → Nat → FsState → List String → List (List String) →
    Except String (List String × List (List String))
  | [], _, _, acc, cks => Except.ok (acc, cks)
  | b :: rest, i, st, acc, cks =>
    let r := process_batch_async env cname b (orders i) st
    let acc2 := acc ++ r.1
    if i % (bs * 5) = 0 then
      if ckFail i then Except.error (ckDetail i)
      else run_call env cname orders ckFail ckDetail bs total rest (i + bs) r.2 acc2
        (cks ++ [acc2 ++ List.replicate (total - acc2.length) ""])
    else run_call env cname orders ckFail ckDetail bs total rest (i + bs) r.2 acc2 cks

/-- `AllInOne.__call__` (main.py lines 132-156).  A zero `batch_size` makes
`range(0, N, 0)` raise `ValueError` immediately; otherwise the batches are
processed sequentially and on completion the full answers list is attached
(`self.csv['answers'] = answers`).  Returns the answers column and the list
of checkpoints written. -/
def all_in_one_call (env : Env) (cname : String → String) (orders : Nat → List Nat)
    (ckFail : Nat → Bool) (ckDetail : Nat → String) (bs : Nat)
    (searches : List String) (st0 : FsState) :
    Except String (List String × List (List String)) :=
  if bs = 0 then Except.error "ValueError: range() arg 3 must not be zero"
  else run_call env cname orders ckFail ckDetail bs searches.length
    (toBatches bs searches) 0 st0 [] []

/-- `AllInOne.__init__` (main.py line 60):
`self.max_workers = max_workers or min(32, multiprocessing.cpu_count() * 2)`.
A falsy argument (absent or zero) selects the default; any other explicit
value is used as given. -/
def max_workers_init (param : Option Nat) (cpu_count : Nat) : Nat :=
  match param with
  | none => min 32 (cpu_count * 2)
  | some m => if m = 0 then min 32 (cpu_count * 2) else m

/- ### Order-independence machinery

`expectedResult` is the value the per-key unit of work produces for a key,
computed from the initial filesystem state of the run; the invariant `Inv`
says how the threaded state can differ from the initial one during a run,
and is what makes the per-key results independent of completion order. -/

/-- Whether a cache lookup succeeds with a deserializable answer. -/
def is_good_entry : Option Entry → Bool
  | some (Entry.good _) => true
  | _ => false

/-- The per-key result determined by the initial state of the run. -/
def expectedResult (env : Env) (cname : String → String) (init : FsState)
    (k : String) : String :=
  match init.cache (cname k) with
  | some (Entry.good a) => a
  | _ =>
    if env.queryFail k then errStr k (env.queryDetail k)
    else if init.artifacts k && env.deleteFail k then errStr k (env.deleteDetail k)
    else if env.storeFail k then errStr k (env.storeDetail k)
    else env.qval

/-- Absence of cache-filename collisions among the keys of a run (the spec
accepts hash collisions as a known limitation, so they are assumed away). -/
def key_inj (cname : String → String) (keys : List String) : Prop :=
  ∀ a, a ∈ keys → ∀ b, b ∈ keys → cname a = cname b → a = b

/-- Invariant relating the threaded filesystem state to the initial state of
the run: a cache file either still holds its initial content or was written
by a completed task whose expected result is the stored query value; an
artifact either has its initial existence or was removed by a successful
`os.remove`. -/
structure RunInv (env : Env) (cname : String → String) (keys : List String)
    (init st : FsState) : Prop where
  cacheInv : ∀ h, st.cache h = init.cache h ∨
    (∃ k0, k0 ∈ keys ∧ cname k0 = h ∧
      expectedResult env cname init k0 = env.qval ∧
      is_good_entry (init.cache h) = false ∧
      st.cache h = some (Entry.good env.qval))
  artInv : ∀ a, st.artifacts a = init.artifacts a ∨
    (st.artifacts a = false ∧ env.deleteFail a = false)

theorem RunInv.refl (env : Env) (cname : String → String) (keys : List String)
    (st : FsState) : RunInv env cname keys st st :=
  ⟨fun _ => Or.inl rfl, fun _ => Or.inl rfl⟩

theorem process_single_result (env : Env) (cname : String → String)
    (keys : List String) (init st : FsState) (k : String)
    (hIv : RunInv env cname keys init st) (hk : k ∈ keys)
    (hinj : key_inj cname keys) :
    (process_single_search_async env cname st k).1 = expectedResult env cname init k := by
  obtain ⟨hc, ha⟩ := hIv
  rcases hc (cname k) with hck | ⟨k0, hk0, hn0, hexp, hgf, hstc⟩
  · cases hst : st.cache (cname k) with
    | none =>
      have hini : init.cache (cname k) = none := hck.symm.trans hst
      simp only [process_single_search_async, process_miss, expectedResult, hst, hini]
      rcases ha k with haa | ⟨hfa, hdf⟩
      · rw [haa]
        split_ifs <;> rfl
      · simp only [hfa, hdf, Bool.false_and, Bool.and_false]
        split_ifs <;> rfl
    | some e =>
      cases e with
      | good a =>
        have hini : init.cache (cname k) = some (Entry.good a) := hck.symm.trans hst
        simp only [process_single_search_async, process_miss, expectedResult, hst, hini]
      | corrupt =>
        have hini : init.cache (cname k) = some Entry.corrupt := hck.symm.trans hst
        simp only [process_single_search_async, process_miss, expectedResult, hst, hini]
        rcases ha k with haa | ⟨hfa, hdf⟩
        · rw [haa]
          split_ifs <;> rfl
        · simp only [hfa, hdf, Bool.false_and, Bool.and_false]
          split_ifs <;> rfl
  · have hkk : k0 = k := hinj k0 hk0 k hk hn0
    subst hkk
    simp only [process_single_search_async, hstc]
    exact hexp.symm

theorem bool_not_true {b : Bool} (h : ¬ b = true) : b = false := by
  cases b
  · rfl
  · exact absurd rfl h

theorem not_good_entry_elim (e : Option Entry) (h : is_good_entry e = false) :
    e = none ∨ e = some Entry.corrupt := by
  cases e with
  | none => exact Or.inl rfl
  | some x =>
    cases x with
    | corrupt => exact Or.inr rfl
    | good a => simp [is_good_entry] at h

theorem expected_eq_qval (env : Env) (cname : String → String) (init : FsState) (k : String)
    (hini : is_good_entry (init.cache (cname k)) = false)
    (hq : env.queryFail k = false)
    (hd : (init.artifacts k && env.deleteFail k) = false)
    (hs : env.storeFail k = false) :
    expectedResult env cname init k = env.qval := by
  rcases not_good_entry_elim _ hini with h0 | h0 <;>
    simp [expectedResult, h0, hq, hd, hs]

theorem process_miss_inv (env : Env) (cname : String → String)
    (keys : List String) (init st : FsState) (k : String)
    (hIv : RunInv env cname keys init st) (hk : k ∈ keys)
    (hgf : is_good_entry (st.cache (cname k)) = false) :
    RunInv env cname keys init (process_miss env cname st k).2.1 := by
  obtain ⟨hc, ha⟩ := hIv
  have hini : is_good_entry (init.cache (cname k)) = false := by
    rcases hc (cname k) with heq | ⟨k0, _hm, _hn, _he, _hg, hstc⟩
    · rw [← heq]; exact hgf
    · rw [hstc] at hgf; simp [is_good_entry] at hgf
  have hinitArt : (st.artifacts k && env.deleteFail k) = false →
      (init.artifacts k && env.deleteFail k) = false := by
    intro hd
    rcases ha k with haa | ⟨_, hdf⟩
    · rw [← haa]; exact hd
    · rw [hdf, Bool.and_false]
  have hartNew : env.deleteFail k = false →
      ∀ a, Function.update st.artifacts k false a = init.artifacts a ∨
        (Function.update st.artifacts k false a = false ∧ env.deleteFail a = false) := by
    intro hdf a
    by_cases hak : a = k
    · subst hak
      exact Or.inr ⟨Function.update_same _ _ _, hdf⟩
    · rw [Function.update_noteq hak]
      exact ha a
  have hcacheNew : env.queryFail k = false → (st.artifacts k && env.deleteFail k) = false →
      env.storeFail k = false →
      ∀ h, Function.update st.cache (cname k) (some (Entry.good env.qval)) h = init.cache h ∨
        (∃ k0, k0 ∈ keys ∧ cname k0 = h ∧ expectedResult env cname init k0 = env.qval ∧
          is_good_entry (init.cache h) = false ∧
          Function.update st.cache (cname k) (some (Entry.good env.qval)) h =
            some (Entry.good env.qval)) := by
    intro hq hd hs h
    by_cases hh : h = cname k
    · subst hh
      exact Or.inr ⟨k, hk, rfl,
        expected_eq_qval env cname init k hini hq (hinitArt hd) hs, hini,
        Function.update_same _ _ _⟩
    · rw [Function.update_noteq hh]
      exact hc h
  simp only [process_miss]
  split_ifs with hq hd hs hart hart2
  · exact ⟨hc, ha⟩
  · exact ⟨hc, ha⟩
  · have hdf : env.deleteFail k = false := by simp [hart] at hd; exact hd
    exact ⟨hc, hartNew hdf⟩
  · exact ⟨hc, ha⟩
  · have hdf : env.deleteFail k = false := by simp [hart2] at hd; exact hd
    exact ⟨hcacheNew (bool_not_true hq) (bool_not_true hd) (bool_not_true hs),
      hartNew hdf⟩
  · exact ⟨hcacheNew (bool_not_true hq) (bool_not_true hd) (bool_not_true hs), ha⟩

theorem process_single_inv (env : Env) (cname : String → String)
    (keys : List String) (init st : FsState) (k : String)
    (hIv : RunInv env cname keys init st) (hk : k ∈ keys) :
    RunInv env cname keys init (process_single_search_async env cname st k).2.1 := by
  cases hst : st.cache (cname k) with
  | some e =>
    cases e with
    | good a =>
      simp only [process_single_search_async, hst]
      exact hIv
    | corrupt =>
      simp only [process_single_search_async, hst]
      exact process_miss_inv env cname keys init st k hIv hk (by rw [hst]; rfl)
  | none =>
    simp only [process_single_search_async, hst]
    exact process_miss_inv env cname keys init st k hIv hk (by rw [hst]; rfl)

theorem run_tasks_spec (env : Env) (cname : String → String)
    (keys : List String) (init : FsState) (b : List String)
    (hsub : ∀ k, k ∈ b → k ∈ keys) (hinj : key_inj cname keys) :
    ∀ (order : List Nat) (f0 : Nat → Option String) (st : FsState),
      RunInv env cname keys init st →
      RunInv env cname keys init (run_tasks env cname b order f0 st).2 ∧
      ∀ i, (run_tasks env cname b order f0 st).1 i =
        if i ∈ order ∧ i < b.length
        then some (expectedResult env cname init (b.getD i ""))
        else f0 i := by
  intro order
  induction order with
  | nil =>
    intro f0 st hIv
    refine ⟨hIv, fun i => ?_⟩
    simp [run_tasks]
  | cons j rest ih =>
    intro f0 st hIv
    cases hbj : b[j]? with
    | some k =>
      have hkk : k ∈ keys := hsub k (List.getElem?_mem hbj)
      have hlt : j < b.length := (List.getElem?_eq_some.mp hbj).1
      have hres := process_single_result env cname keys init st k hIv hkk hinj
      have hinv := process_single_inv env cname keys init st k hIv hkk
      have hgd : b.getD j "" = k := by
        rw [List.getD_eq_getElem?_getD, hbj]
        rfl
      simp only [run_tasks, hbj]
      obtain ⟨hinv2, hfun⟩ :=
        ih (Function.update f0 j (some (process_single_search_async env cname st k).1))
          (process_single_search_async env cname st k).2.1 hinv
      refine ⟨hinv2, fun i => ?_⟩
      rw [hfun i]
      by_cases hir : i ∈ rest ∧ i < b.length
      · rw [if_pos hir, if_pos ⟨List.mem_cons_of_mem j hir.1, hir.2⟩]
      · rw [if_neg hir]
        by_cases hij : i = j
        · subst hij
          rw [Function.update_same, hres, hgd,
            if_pos ⟨List.mem_cons_self i rest, hlt⟩]
        · rw [Function.update_noteq hij]
          rw [if_neg]
          intro ⟨hmem, hilt⟩
          rcases List.mem_cons.mp hmem with h | h
          · exact hij h
          · exact hir ⟨h, hilt⟩
    | none =>
      have hge : b.length ≤ j := List.getElem?_eq_none_iff.mp hbj
      simp only [run_tasks, hbj]
      obtain ⟨hinv2, hfun⟩ := ih f0 st hIv
      refine ⟨hinv2, fun i => ?_⟩
      rw [hfun i]
      by_cases hir : i ∈ rest ∧ i < b.length
      · rw [if_pos hir, if_pos ⟨List.mem_cons_of_mem j hir.1, hir.2⟩]
      · rw [if_neg hir, if_neg]
        intro ⟨hmem, hilt⟩
        rcases List.mem_cons.mp hmem with h | h
        · subst h
          exact absurd hilt (Nat.not_lt.mpr hge)
        · exact hir ⟨h, hilt⟩

theorem process_batch_spec (env : Env) (cname : String → String)
    (keys : List String) (init : FsState) (b : List String)
    (order : List Nat) (st : FsState)
    (hIv : RunInv env cname keys init st)
    (hsub : ∀ k, k ∈ b → k ∈ keys) (hinj : key_inj cname keys)
    (hord : ∀ j, j < b.length → j ∈ order) :
    (process_batch_async env cname b order st).1 =
      b.map (expectedResult env cname init) ∧
    RunInv env cname keys init (process_batch_async env cname b order st).2 := by
  obtain ⟨hinv, hfun⟩ :=
    run_tasks_spec env cname keys init b hsub hinj order (fun _ => none) st hIv
  refine ⟨?_, hinv⟩
  apply List.ext_getElem
  · simp [process_batch_async]
  · intro i h1 h2
    have hib : i < b.length := by
      simpa [process_batch_async] using h1
    simp only [process_batch_async, List.getElem_map, List.getElem_range]
    rw [hfun i, if_pos ⟨hord i hib, hib⟩]
    simp [List.getD_eq_getElem?_getD, List.getElem?_eq_getElem hib]

theorem toBatchesAux_join (bs : Nat) (hbs : 1 ≤ bs) :
    ∀ (fuel : Nat) (l : List String), l.length ≤ fuel →
      (toBatchesAux bs fuel l).flatten = l := by
  intro fuel
  induction fuel with
  | zero =>
    intro l hl
    have h0 : l = [] := List.eq_nil_of_length_eq_zero (Nat.le_zero.mp hl)
    subst h0
    rfl
  | succ f ih =>
    intro l hl
    cases l with
    | nil => rfl
    | cons a t =>
      have hlc : (a :: t).length = t.length + 1 := rfl
      simp only [toBatchesAux, List.flatten_cons]
      rw [ih ((a :: t).drop bs) (by rw [List.length_drop]; omega)]
      exact List.take_append_drop bs (a :: t)

theorem toBatches_join (bs : Nat) (hbs : 1 ≤ bs) (l : List String) :
    (toBatches bs l).flatten = l :=
  toBatchesAux_join bs hbs l.length l (Nat.le_refl _)

theorem toBatchesAux_mem_le (bs : Nat) :
    ∀ (fuel : Nat) (l b : List String), b ∈ toBatchesAux bs fuel l → b.length ≤ bs := by
  intro fuel
  induction fuel with
  | zero =>
    intro l b hb
    simp [toBatchesAux] at hb
  | succ f ih =>
    intro l b hb
    cases l with
    | nil => simp [toBatchesAux] at hb
    | cons a t =>
      simp only [toBatchesAux] at hb
      rcases List.mem_cons.mp hb with h | h
      · subst h
        rw [List.length_take]
        exact Nat.min_le_left _ _
      · exact ih _ _ h

theorem run_call_ok (env : Env) (cname : String → String)
    (orders : Nat → List Nat) (ckFail : Nat → Bool) (ckDetail : Nat → String)
    (bs total : Nat) (keys : List String) (init : FsState)
    (hinj : key_inj cname keys)
    (hord : ∀ i j, j < bs → j ∈ orders i) :
    ∀ (batches : List (List String)) (i : Nat) (st : FsState)
      (acc ans : List String) (cks cksf : List (List String)),
      RunInv env cname keys init st →
      (∀ b, b ∈ batches → ∀ k, k ∈ b → k ∈ keys) →
      (∀ b, b ∈ batches → b.length ≤ bs) →
      run_call env cname orders ckFail ckDetail bs total batches i st acc cks =
        Except.ok (ans, cksf) →
      ans = acc ++ batches.flatten.map (expectedResult env cname init) := by
  intro batches
  induction batches with
  | nil =>
    intro i st acc ans cks cksf _ _ _ heq
    simp only [run_call, Except.ok.injEq, Prod.mk.injEq] at heq
    rw [← heq.1]
    simp
  | cons b rest ih =>
    intro i st acc ans cks cksf hIv hsub hlen heq
    obtain ⟨hmap, hinv⟩ := process_batch_spec env cname keys init b (orders i) st hIv
      (hsub b (List.mem_cons_self b rest)) hinj
      (fun j hj => hord i j (Nat.lt_of_lt_of_le hj (hlen b (List.mem_cons_self b rest))))
    simp only [run_call] at heq
    have hrec : ∀ cks2, run_call env cname orders ckFail ckDetail bs total rest (i + bs)
        (process_batch_async env cname b (orders i) st).2
        (acc ++ (process_batch_async env cname b (orders i) st).1) cks2 =
        Except.ok (ans, cksf) →
        ans = acc ++ (b :: rest).flatten.map (expectedResult env cname init) := by
      intro cks2 h2
      have := ih (i + bs) (process_batch_async env cname b (orders i) st).2
        (acc ++ (process_batch_async env cname b (orders i) st).1) ans cks2 cksf hinv
        (fun b2 hb2 => hsub b2 (List.mem_cons_of_mem b hb2))
        (fun b2 hb2 => hlen b2 (List.mem_cons_of_mem b hb2)) h2
      rw [this, hmap]
      simp [List.flatten_cons, List.append_assoc]
    split_ifs at heq with h1 h2
    · exact hrec _ heq
    · exact hrec _ heq

theorem run_call_cks_prefix (env : Env) (cname : String → String)
    (orders : Nat → List Nat) (ckFail : Nat → Bool) (ckDetail : Nat → String)
    (bs total : Nat) :
    ∀ (batches : List (List String)) (i : Nat) (st : FsState)
      (acc ans : List String) (cks cksf : List (List String)),
      run_call env cname orders ckFail ckDetail bs total batches i st acc cks =
        Except.ok (ans, cksf) →
      ∃ t, cksf = cks ++ t := by
  intro batches
  induction batches with
  | nil =>
    intro i st acc ans cks cksf heq
    simp only [run_call, Except.ok.injEq, Prod.mk.injEq] at heq
    exact ⟨[], by rw [← heq.2]; simp⟩
  | cons b rest ih =>
    intro i st acc ans cks cksf heq
    simp only [run_call] at heq
    split_ifs at heq with h1 h2
    · obtain ⟨t, ht⟩ := ih _ _ _ _ _ _ heq
      refine ⟨[acc ++ (process_batch_async env cname b (orders i) st).1 ++
        List.replicate (total - (acc ++ (process_batch_async env cname b (orders i) st).1).length) ""] ++ t, ?_⟩
      rw [ht]
      simp
    · exact ih _ _ _ _ _ _ heq

/-- C1: for every input sequence of search keys and every batch size, whenever
the pipeline `__call__` completes, it produces an answers list whose length
equals the number of input keys and whose entry at position i is the result
of the per-key processing step applied to the key at position i (evaluated
against the run's initial state), for every completion order within every
batch — `asyncio.gather` re-associates results positionally. -/
theorem c1_pipeline_positional_ordering
    (env : Env) (cname : String → String) (orders : Nat → List Nat)
    (ckFail : Nat → Bool) (ckDetail : Nat → String) (bs : Nat)
    (searches : List String) (st0 : FsState)
    (ans : List String) (cks : List (List String))
    (hinj : key_inj cname searches)
    (hord : ∀ i j, j < bs → j ∈ orders i)
    (hok : all_in_one_call env cname orders ckFail ckDetail bs searches st0 =
      Except.ok (ans, cks)) :
    ans.length = searches.length ∧
    ∀ (i : Nat) (k : String), searches[i]? = some k →
      ans[i]? = some ((process_single_search_async env cname st0 k).1) := by
  have hbs : bs ≠ 0 := by
    intro h0
    rw [h0] at hok
    simp [all_in_one_call] at hok
  rw [all_in_one_call, if_neg hbs] at hok
  have hbs1 : 1 ≤ bs := Nat.one_le_iff_ne_zero.mpr hbs
  have hflat := toBatches_join bs hbs1 searches
  have hsub : ∀ b, b ∈ toBatches bs searches → ∀ k, k ∈ b → k ∈ searches := by
    intro b hb k hk
    rw [← hflat]
    exact List.mem_flatten.mpr ⟨b, hb, hk⟩
  have hlen : ∀ b, b ∈ toBatches bs searches → b.length ≤ bs :=
    fun b hb => toBatchesAux_mem_le bs searches.length searches b hb
  have hans := run_call_ok env cname orders ckFail ckDetail bs searches.length searches st0
    hinj hord (toBatches bs searches) 0 st0 [] ans [] cks
    (RunInv.refl env cname searches st0) hsub hlen hok
  rw [hflat] at hans
  simp only [List.nil_append] at hans
  constructor
  · rw [hans, List.length_map]
  · intro i k hik
    have hexp : expectedResult env cname st0 k =
        (process_single_search_async env cname st0 k).1 :=
      (process_single_result env cname searches st0 st0 k
        (RunInv.refl env cname searches st0) (List.getElem?_mem hik) hinj).symm
    rw [hans, List.getElem?_map, hik]
    simp [hexp]

/- ### Concrete fixtures for witnesses and counterexamples -/

/-- A failure-free environment whose knowledge-graph query answers "A". -/
def env_w : Env :=
  { qval := "A"
    fetchBody := fun _ => PyVal.session
    queryFail := fun _ => false, queryDetail := fun _ => ""
    deleteFail := fun _ => false, deleteDetail := fun _ => ""
    storeFail := fun _ => false, storeDetail := fun _ => "" }

/-- Empty filesystem: no cache entries, no leftover artifacts. -/
def st_empty : FsState := { cache := fun _ => none, artifacts := fun _ => false }

/-- A three-key input column. -/
def searches_w : List String := ["x", "y", "z"]

/-- A completion order that finishes the second task of each batch first. -/
def orders_w : Nat → List Nat := fun _ => [1, 0]

theorem c1_pipeline_positional_ordering_witness :
    all_in_one_call env_w id orders_w (fun _ => false) (fun _ => "") 2 searches_w st_empty =
      Except.ok (["A", "A", "A"], [["A", "A", ""]]) ∧
    ["A", "A", "A"].length = searches_w.length ∧
    ∀ (i : Nat) (k : String), searches_w[i]? = some k →
      ["A", "A", "A"][i]? = some ((process_single_search_async env_w id st_empty k).1) := by
  have hok : all_in_one_call env_w id orders_w (fun _ => false) (fun _ => "") 2 searches_w st_empty =
      Except.ok (["A", "A", "A"], [["A", "A", ""]]) := by rfl
  have hord : ∀ i j, j < 2 → j ∈ orders_w i := by
    intro i j hj
    rcases j with _ | j
    · simp [orders_w]
    · rcases j with _ | j
      · simp [orders_w]
      · omega
  obtain ⟨h1, h2⟩ := c1_pipeline_positional_ordering env_w id orders_w
    (fun _ => false) (fun _ => "") 2 searches_w st_empty
    ["A", "A", "A"] [["A", "A", ""]] (fun a _ b _ h => h) hord hok
  exact ⟨hok, h1, h2⟩

/- ### C2: per-key error boundary -/

theorem process_single_miss_red (env : Env) (cname : String → String)
    (st : FsState) (k : String)
    (hmiss : is_good_entry (st.cache (cname k)) = false) :
    process_single_search_async env cname st k = process_miss env cname st k := by
  rcases not_good_entry_elim _ hmiss with h0 | h0 <;>
    simp [process_single_search_async, h0]

/-- C2: on a cache miss, if the answering, artifact-deletion or cache-store
step of the per-key unit of work raises (the fetch wrapper catches its own
exceptions internally and cannot raise), the unit of work returns the
formatted string "Error processing {key}: {detail}" instead of letting the
exception propagate, so no per-row failure aborts the batch. -/
theorem c2_per_key_error_boundary (env : Env) (cname : String → String)
    (st : FsState) (k : String)
    (hmiss : is_good_entry (st.cache (cname k)) = false)
    (hfail : env.queryFail k = true ∨
      (st.artifacts k = true ∧ env.deleteFail k = true) ∨
      env.storeFail k = true) :
    ∃ d, (process_single_search_async env cname st k).1 =
      "Error processing " ++ k ++ ": " ++ d := by
  rw [process_single_miss_red env cname st k hmiss]
  by_cases hq : env.queryFail k = true
  · exact ⟨env.queryDetail k, by simp [process_miss, hq, errStr]⟩
  · by_cases hd : (st.artifacts k && env.deleteFail k) = true
    · exact ⟨env.deleteDetail k, by simp [process_miss, bool_not_true hq, hd, errStr]⟩
    · have hs : env.storeFail k = true := by
        rcases hfail with h | ⟨ha1, ha2⟩ | h
        · exact absurd h hq
        · exact absurd (by rw [ha1, ha2]; rfl) hd
        · exact h
      exact ⟨env.storeDetail k, by
        simp [process_miss, bool_not_true hq, bool_not_true hd, hs, errStr]⟩

/-- Environment whose knowledge-engine query raises for every key. -/
def env_qfail : Env :=
  { env_w with queryFail := fun _ => true, queryDetail := fun _ => "boom" }

theorem c2_per_key_error_boundary_witness :
    is_good_entry (st_empty.cache (id "k")) = false ∧
    env_qfail.queryFail "k" = true ∧
    ∃ d, (process_single_search_async env_qfail id st_empty "k").1 =
      "Error processing " ++ "k" ++ ": " ++ d :=
  ⟨rfl, rfl, c2_per_key_error_boundary env_qfail id st_empty "k" rfl (Or.inl rfl)⟩

/- ### C3: cache hit short-circuit and idempotence -/

/-- C3: a present, deserializable cache entry is returned immediately with no
fetch and no knowledge-engine invocation; and after any first invocation that
left the key's cache file holding its own returned answer, a second
invocation with the same key returns the identical answer without invoking
the fetcher or the answering engine. -/
theorem c3_cache_hit_idempotent :
    (∀ (env : Env) (cname : String → String) (st : FsState) (k a : String),
      st.cache (cname k) = some (Entry.good a) →
      process_single_search_async env cname st k = (a, st, ⟨0, 0⟩)) ∧
    (∀ (env : Env) (cname : String → String) (st : FsState) (k : String),
      (process_single_search_async env cname st k).2.1.cache (cname k) =
        some (Entry.good (process_single_search_async env cname st k).1) →
      process_single_search_async env cname
          (process_single_search_async env cname st k).2.1 k =
        ((process_single_search_async env cname st k).1,
         (process_single_search_async env cname st k).2.1, ⟨0, 0⟩)) := by
  have hhit : ∀ (env : Env) (cname : String → String) (st : FsState) (k a : String),
      st.cache (cname k) = some (Entry.good a) →
      process_single_search_async env cname st k = (a, st, ⟨0, 0⟩) := by
    intro env cname st k a hst
    simp [process_single_search_async, hst]
  exact ⟨hhit, fun env cname st k h => hhit env cname _ k _ h⟩

/-- Filesystem with a good cache entry for key "k" under filename `id "k"`. -/
def st_hit : FsState :=
  { cache := Function.update (fun _ => none) "k" (some (Entry.good "CACHED"))
    artifacts := fun _ => false }

theorem c3_cache_hit_idempotent_witness :
    st_hit.cache (id "k") = some (Entry.good "CACHED") ∧
    process_single_search_async env_w id st_hit "k" = ("CACHED", st_hit, ⟨0, 0⟩) ∧
    (process_single_search_async env_w id st_empty "k").2.1.cache (id "k") =
      some (Entry.good (process_single_search_async env_w id st_empty "k").1) ∧
    process_single_search_async env_w id
        (process_single_search_async env_w id st_empty "k").2.1 "k" =
      ((process_single_search_async env_w id st_empty "k").1,
       (process_single_search_async env_w id st_empty "k").2.1, ⟨0, 0⟩) := by
  have h1 : st_hit.cache (id "k") = some (Entry.good "CACHED") := by decide
  have h2 : (process_single_search_async env_w id st_empty "k").2.1.cache (id "k") =
      some (Entry.good (process_single_search_async env_w id st_empty "k").1) := by decide
  exact ⟨h1, c3_cache_hit_idempotent.1 env_w id st_hit "k" "CACHED" h1,
    h2, c3_cache_hit_idempotent.2 env_w id st_empty "k" h2⟩

/- ### C9: corrupt cache entries behave as absent -/

/-- C9: for a key whose cache file exists but whose deserialization raises
(a corrupt entry), the per-key unit of work returns the same answer and the
same collaborator-invocation trace as it would if the entry were absent, and
it proceeds to recompute: the knowledge engine is invoked. -/
theorem c9_corrupt_cache_as_absent (env : Env) (cname : String → String)
    (st : FsState) (k : String)
    (hcor : st.cache (cname k) = some Entry.corrupt) :
    (process_single_search_async env cname st k).1 =
      (process_single_search_async env cname
        { st with cache := Function.update st.cache (cname k) none } k).1 ∧
    (process_single_search_async env cname st k).2.2 =
      (process_single_search_async env cname
        { st with cache := Function.update st.cache (cname k) none } k).2.2 ∧
    (process_single_search_async env cname st k).2.2.queried = 1 := by
  have h1 : process_single_search_async env cname st k = process_miss env cname st k := by
    simp [process_single_search_async, hcor]
  have h2 : process_single_search_async env cname
      { st with cache := Function.update st.cache (cname k) none } k =
      process_miss env cname { st with cache := Function.update st.cache (cname k) none } k := by
    simp [process_single_search_async, Function.update_same]
  rw [h1, h2]
  refine ⟨?_, ?_, ?_⟩ <;>
    · simp only [process_miss]
      split_ifs <;> rfl

/-- Filesystem with a corrupt cache entry for key "k". -/
def st_corrupt : FsState :=
  { cache := Function.update (fun _ => none) "k" (some Entry.corrupt)
    artifacts := fun _ => false }

theorem c9_corrupt_cache_as_absent_witness :
    st_corrupt.cache (id "k") = some Entry.corrupt ∧
    ((process_single_search_async env_w id st_corrupt "k").1 =
      (process_single_search_async env_w id
        { st_corrupt with cache := Function.update st_corrupt.cache (id "k") none } "k").1 ∧
    (process_single_search_async env_w id st_corrupt "k").2.2 =
      (process_single_search_async env_w id
        { st_corrupt with cache := Function.update st_corrupt.cache (id "k") none } "k").2.2 ∧
    (process_single_search_async env_w id st_corrupt "k").2.2.queried = 1) :=
  ⟨by decide, c9_corrupt_cache_as_absent env_w id st_corrupt "k" (by decide)⟩

/- ### C10: the fetch helper always returns the empty string -/

theorem process_miss_artifacts_le (env : Env) (cname : String → String)
    (st : FsState) (k a : String)
    (h : (process_miss env cname st k).2.1.artifacts a = true) :
    st.artifacts a = true := by
  revert h
  simp only [process_miss]
  split_ifs with hq hd hs hart hart2 <;> intro h
  · exact h
  · exact h
  · by_cases hak : a = k
    · subst hak
      have h2 : Function.update st.artifacts a false a = true := h
      rw [Function.update_same] at h2
      exact absurd h2 (by simp)
    · have h2 : Function.update st.artifacts k false a = true := h
      rwa [Function.update_noteq hak] at h2
  · exact h
  · by_cases hak : a = k
    · subst hak
      have h2 : Function.update st.artifacts a false a = true := h
      rw [Function.update_same] at h2
      exact absurd h2 (by simp)
    · have h2 : Function.update st.artifacts k false a = true := h
      rwa [Function.update_noteq hak] at h2
  · exact h

/-- C10: `_fetch_website_text` calls `extract_top_website_text` with three
arguments while the callee takes two parameters, so every invocation raises
`TypeError`, the wrapper's handler converts the failure to "", and the fetch
step never adds content to the working directory (the per-key step never
creates an artifact). -/
theorem c10_fetch_always_empty :
    (∀ (body : List PyVal → PyVal) (search : String),
      fetch_website_text body search = "") ∧
    (∀ (env : Env) (cname : String → String) (st : FsState) (k a : String),
      (process_single_search_async env cname st k).2.1.artifacts a = true →
      st.artifacts a = true) := by
  constructor
  · intro body search
    rfl
  · intro env cname st k a h
    revert h
    cases hst : st.cache (cname k) with
    | some e =>
      cases e with
      | good x =>
        simp [process_single_search_async, hst]
      | corrupt =>
        simp only [process_single_search_async, hst]
        exact process_miss_artifacts_le env cname st k a
    | none =>
      simp only [process_single_search_async, hst]
      exact process_miss_artifacts_le env cname st k a

/-- Filesystem with a leftover artifact for key "m" only. -/
def st_art : FsState :=
  { cache := fun _ => none, artifacts := fun a => a == "m" }

theorem c10_fetch_always_empty_witness :
    fetch_website_text (fun _ => PyVal.session) "q" = "" ∧
    st_art.artifacts "m" = true :=
  ⟨c10_fetch_always_empty.1 (fun _ => PyVal.session) "q",
   c10_fetch_always_empty.2 env_w id st_art "k" "m" (by decide)⟩

/- ### C4: worker-pool configuration and in-flight bound -/

/-- C4 counterexample: an explicitly supplied `max_workers` is not bounded
above by 32 — `max_workers or min(32, cpu_count * 2)` keeps any non-zero
explicit value as given. -/
theorem c4_counterexample_max_workers_uncapped :
    ¬ (max_workers_init (some 100) 4 ≤ 32) := by decide

/-- C4 amended: the default (absent or zero `max_workers`) is
`min(32, 2 * cpu_count)` and hence at most 32, but an explicit non-zero value
is used as given with no cap; and the async batch path schedules one task per
key of the batch all at once — the in-flight bound within a batch is the
batch length, not `max_workers` (which the async path never reads).  Batches
themselves are processed strictly sequentially by the loop. -/
theorem c4_worker_config :
    (∀ cpu, max_workers_init none cpu ≤ 32) ∧
    (∀ cpu, max_workers_init (some 0) cpu ≤ 32) ∧
    (∀ m cpu, m ≠ 0 → max_workers_init (some m) cpu = m) ∧
    (∀ b : List String, (batch_tasks b).length = b.length) := by
  refine ⟨fun cpu => ?_, fun cpu => ?_, fun m cpu hm => ?_, fun b => rfl⟩
  · simp only [max_workers_init]
    exact Nat.min_le_left _ _
  · simp only [max_workers_init, if_pos rfl]
    exact Nat.min_le_left _ _
  · simp [max_workers_init, hm]

theorem c4_worker_config_witness :
    (5 : Nat) ≠ 0 ∧ max_workers_init (some 5) 4 = 5 :=
  ⟨by decide, c4_worker_config.2.2.1 5 4 (by decide)⟩

/- ### C5: the answer comes from the construction-time index -/

/-- The answering backend used by the C5 counterexample: it distinguishes an
empty index from a non-empty one. -/
def af_c5 : List String → String → String :=
  fun docs _ => if docs.isEmpty then "emptyidx" else "gotdocs"

/-- A failure-free environment built the way `AllInOne.__init__` does: the
knowledge graph is constructed once over an empty working directory. -/
def env_c5 : Env :=
  all_in_one_env af_c5 [] "Q" (fun _ => PyVal.session)
    (fun _ => false) (fun _ => "") (fun _ => false) (fun _ => "")
    (fun _ => false) (fun _ => "")

/-- Filesystem at query time for the C5 counterexample: the working directory
holds the document fetched for key "k". -/
def st_c5 : FsState :=
  { cache := fun _ => none, artifacts := fun a => a == "k" }

/-- C5 counterexample: with the working directory holding key "k"'s document
at query time, the per-key answer is the one computed from the
construction-time (empty) index, not the answer the engine would give for
the current working-directory state — the claim's reading
(`spec_engine_answer` over the documents present at query time) disagrees
with the code. -/
theorem c5_counterexample_stale_index :
    (process_single_search_async env_c5 id st_c5 "k").1 ≠
      spec_engine_answer af_c5 ["k"] "Q" := by decide

/-- C5 amended: on a cache miss with no step failures, the answering engine
is invoked exactly once (after the fetch), but the answer it returns is a
function of the index built once at orchestrator construction — from the
working directory's contents at that time — and the run's fixed question; it
is the same for every working-directory state at query time and does not
reflect the documents fetched for the key. -/
theorem c5_answer_from_init_index
    (answer_fn : List String → String → String) (docs_at_init : List String)
    (question : String) (body : List PyVal → PyVal) (qd dd sd : String → String)
    (cname : String → String) (st : FsState) (k : String)
    (hmiss : is_good_entry (st.cache (cname k)) = false) :
    (process_single_search_async
      (all_in_one_env answer_fn docs_at_init question body
        (fun _ => false) qd (fun _ => false) dd (fun _ => false) sd)
      cname st k).1 =
      KGm.query answer_fn (KGm.build docs_at_init) question ∧
    (process_single_search_async
      (all_in_one_env answer_fn docs_at_init question body
        (fun _ => false) qd (fun _ => false) dd (fun _ => false) sd)
      cname st k).2.2 = ⟨1, 1⟩ := by
  rw [process_single_miss_red _ cname st k hmiss]
  constructor <;> simp [process_miss, all_in_one_env]

theorem c5_answer_from_init_index_witness :
    is_good_entry (st_c5.cache (id "m")) = false ∧
    (process_single_search_async env_c5 id st_c5 "m").1 =
      KGm.query af_c5 (KGm.build []) "Q" ∧
    (process_single_search_async env_c5 id st_c5 "m").2.2 = ⟨1, 1⟩ :=
  ⟨rfl,
   (c5_answer_from_init_index af_c5 [] "Q" (fun _ => PyVal.session)
     (fun _ => "") (fun _ => "") (fun _ => "") id st_c5 "m" rfl).1,
   (c5_answer_from_init_index af_c5 [] "Q" (fun _ => PyVal.session)
     (fun _ => "") (fun _ => "") (fun _ => "") id st_c5 "m" rfl).2⟩

/- ### C6: cache-store failure turns the answer into an error string -/

/-- Environment whose cache persist step raises for every key. -/
def env_sfail : Env :=
  { env_w with
    qval := "THE_ANSWER"
    storeFail := fun _ => true
    storeDetail := fun _ => "disk full" }

/-- C6 counterexample: when persisting the answer fails, the per-key unit of
work does not return the computed answer — it returns the formatted error
string instead. -/
theorem c6_counterexample_store_failure :
    (process_single_search_async env_sfail id st_empty "acme").1 ≠
      env_sfail.qval := by decide

/-- C6 amended: if persisting the answer to the cache store raises on a cache
miss (with the earlier steps succeeding), the per-key exception handler
catches it and the unit of work returns the formatted error string instead
of the computed answer; the exception does not propagate, so the batch is
not aborted. -/
theorem c6_store_failure_returns_error (env : Env) (cname : String → String)
    (st : FsState) (k : String)
    (hmiss : is_good_entry (st.cache (cname k)) = false)
    (hq : env.queryFail k = false)
    (hd : (st.artifacts k && env.deleteFail k) = false)
    (hs : env.storeFail k = true) :
    (process_single_search_async env cname st k).1 =
      errStr k (env.storeDetail k) := by
  rw [process_single_miss_red env cname st k hmiss]
  simp [process_miss, hq, hd, hs]

theorem c6_store_failure_returns_error_witness :
    is_good_entry (st_empty.cache (id "acme")) = false ∧
    env_sfail.storeFail "acme" = true ∧
    (process_single_search_async env_sfail id st_empty "acme").1 =
      errStr "acme" (env_sfail.storeDetail "acme") :=
  ⟨rfl, rfl,
   c6_store_failure_returns_error env_sfail id st_empty "acme" rfl rfl rfl rfl⟩

/- ### C7: the first checkpoint has full row coverage -/

/-- C7: whenever the pipeline completes on a non-empty input, the checkpoint
written after the first batch (offset 0 always satisfies
`i % (batch_size * 5) == 0`) has exactly as many rows as the input, and every
not-yet-processed row holds the empty-string placeholder. -/
theorem c7_first_checkpoint_full_length
    (env : Env) (cname : String → String) (orders : Nat → List Nat)
    (ckFail : Nat → Bool) (ckDetail : Nat → String) (bs : Nat)
    (searches : List String) (st0 : FsState)
    (ans : List String) (cks : List (List String))
    (hne : 0 < searches.length)
    (hok : all_in_one_call env cname orders ckFail ckDetail bs searches st0 =
      Except.ok (ans, cks)) :
    ∃ ck, cks.head? = some ck ∧ ck.length = searches.length ∧
      ∀ j, min bs searches.length ≤ j → j < searches.length →
        ck[j]? = some "" := by
  have hbs : bs ≠ 0 := by
    intro h0
    rw [h0] at hok
    simp [all_in_one_call] at hok
  rw [all_in_one_call, if_neg hbs] at hok
  cases searches with
  | nil => simp at hne
  | cons s ss =>
    rw [toBatches] at hok
    have hlen1 : (s :: ss).length = ss.length + 1 := rfl
    rw [hlen1] at hok
    simp only [toBatchesAux] at hok
    simp only [run_call] at hok
    split_ifs at hok with h1 h2
    · obtain ⟨t, ht⟩ := run_call_cks_prefix env cname orders ckFail ckDetail bs
        (s :: ss).length _ _ _ _ ans _ cks hok
      refine ⟨[] ++ (process_batch_async env cname ((s :: ss).take bs) (orders 0) st0).1 ++
        List.replicate ((s :: ss).length -
          ([] ++ (process_batch_async env cname ((s :: ss).take bs) (orders 0) st0).1).length)
          "", ?_, ?_, ?_⟩
      · rw [ht]
        rfl
      · have hL1 : (process_batch_async env cname ((s :: ss).take bs) (orders 0) st0).1.length =
            min bs (s :: ss).length := by
          simp [process_batch_async, List.length_take]
        simp only [List.nil_append, List.length_append, hL1, List.length_replicate]
        have : min bs (s :: ss).length ≤ (s :: ss).length := Nat.min_le_right _ _
        omega
      · intro j hj1 hj2
        have hL1 : (process_batch_async env cname ((s :: ss).take bs) (orders 0) st0).1.length =
            min bs (s :: ss).length := by
          simp [process_batch_async, List.length_take]
        simp only [List.nil_append]
        rw [List.getElem?_append_right (by rw [hL1]; exact hj1)]
        rw [List.getElem?_replicate, if_pos]
        simp only [List.nil_append, hL1]
        omega
    · exact absurd (Nat.zero_mod (bs * 5)) h1

theorem c7_first_checkpoint_full_length_witness :
    0 < searches_w.length ∧
    ∃ ck, [["A", "A", ""]].head? = some ck ∧ ck.length = searches_w.length ∧
      ∀ j, min 2 searches_w.length ≤ j → j < searches_w.length →
        ck[j]? = some "" :=
  ⟨by decide,
   c7_first_checkpoint_full_length env_w id orders_w (fun _ => false) (fun _ => "") 2
     searches_w st_empty ["A", "A", "A"] [["A", "A", ""]] (by decide) (by rfl)⟩

/- ### C8: a checkpoint write failure aborts the run -/

/-- C8 counterexample: a failure while writing the checkpoint file is
re-raised by the catch-all of `__call__` (log, then `raise`), so the run
aborts with that error instead of continuing in memory. -/
theorem c8_counterexample_checkpoint_aborts :
    all_in_one_call env_w id orders_w (fun _ => true) (fun _ => "disk full") 1
      ["a"] st_empty = Except.error "disk full" := by rfl

/-- C8 amended: a failure while writing a checkpoint file is logged and then
re-raised by the orchestration loop's exception handler, aborting the run:
with a non-empty input (the offset-0 checkpoint is always attempted) the
pipeline returns the checkpoint error instead of the in-memory answers. -/
theorem c8_checkpoint_failure_aborts
    (env : Env) (cname : String → String) (orders : Nat → List Nat)
    (ckFail : Nat → Bool) (ckDetail : Nat → String) (bs : Nat)
    (searches : List String) (st0 : FsState)
    (hne : 0 < searches.length) (hbs : bs ≠ 0) (hcf : ckFail 0 = true) :
    all_in_one_call env cname orders ckFail ckDetail bs searches st0 =
      Except.error (ckDetail 0) := by
  rw [all_in_one_call, if_neg hbs]
  cases searches with
  | nil => simp at hne
  | cons s ss =>
    rw [toBatches]
    have hlen1 : (s :: ss).length = ss.length + 1 := rfl
    rw [hlen1]
    simp only [toBatchesAux, run_call]
    rw [if_pos (Nat.zero_mod (bs * 5)), if_pos hcf]

theorem c8_checkpoint_failure_aborts_witness :
    0 < (["b"] : List String).length ∧ (2 : Nat) ≠ 0 ∧
    all_in_one_call env_w id orders_w (fun _ => true) (fun _ => "LOST") 2
      ["b"] st_empty = Except.error "LOST" :=
  ⟨by decide, by decide,
   c8_checkpoint_failure_aborts env_w id orders_w (fun _ => true) (fun _ => "LOST") 2
     ["b"] st_empty (by decide) (by decide) rfl⟩
